import Mathlib

/-!
Verification of the ISO-8601 offset-preserving timestamp parser
(`parseISOToDateInTimezone` / `getISOTimezoneOffset`).

The JavaScript source operates on strings via `includes`, `at(-1)`,
`lastIndexOf` and `slice`.  We embed strings as Lean `String` and work on
`String.data : List Char`: all characters relevant to the control flow
(`'T'`, `'Z'`, `'+'`, `'-'`, `':'`) are ASCII, and slicing at the index of
an ASCII character never splits a UTF-16 surrogate pair, so the code-unit
indices of the original and the character indices used here order the
occurrences identically and cut the string at the same character boundary.
-/

namespace RealWorldTs

/-- Index of the **last** occurrence of `c` in `l` (`none` when absent);
embeds JavaScript `String.prototype.lastIndexOf` for a single-character
search string (the only way the source uses it). -/
def lastIdx? (c : Char) : List Char → Option Nat
  | [] => none
  | x :: xs =>
    match lastIdx? c xs with
    | some i => some (i + 1)
    | none => if x = c then some 0 else none

/-- JavaScript `dateStr.lastIndexOf(c)`: the index of the last occurrence,
or `-1` when the character does not occur. -/
def jsLastIndexOf (c : Char) (s : String) : Int :=
  match lastIdx? c s.data with
  | some i => (i : Int)
  | none => -1

/-- JavaScript `dateStr.slice(i)` for a non-negative start index. -/
def jsSliceFrom (s : String) (i : Int) : String :=
  ⟨s.data.drop i.toNat⟩

/-- Embedding of `getISOTimezoneOffset` (src/unnamed/part_001, lines 81-122).
`!dateStr` on a string argument is the emptiness test; `includes("T")` is
single-character containment; `at(-1) === "Z"` compares the last character. -/
def getISOTimezoneOffset (dateStr : String) : String :=
  if dateStr = "" then "UTC"
  else if 'T' ∉ dateStr.data then "UTC"
  else if dateStr.data.getLast? = some 'Z' then "UTC"
  else
    let positiveTzOffsetStartIndex := jsLastIndexOf '+' dateStr
    if positiveTzOffsetStartIndex > -1 then
      jsSliceFrom dateStr positiveTzOffsetStartIndex
    else
      let negativeTzOffsetStartIndex := jsLastIndexOf '-' dateStr
      let lastColonCharacterIndex := jsLastIndexOf ':' dateStr
      if negativeTzOffsetStartIndex > -1 ∧ lastColonCharacterIndex > -1 ∧
          negativeTzOffsetStartIndex > lastColonCharacterIndex then
        jsSliceFrom dateStr negativeTzOffsetStartIndex
      else "UTC"

/-- The `undefined` call path of `getISOTimezoneOffset`: `!dateStr` is true
for `undefined`, so the same first guard returns `"UTC"`. -/
def getISOTimezoneOffsetUndef : Option String → String
  | none => "UTC"
  | some s => getISOTimezoneOffset s

/-- The external zoned-datetime value (`TZDate` of `@date-fns/tz`), kept
abstract as its construction data: the zero-argument "current moment"
constructor, or the two-argument constructor from the raw literal and the
resolved offset literal. -/
inductive TZDate where
  | now : TZDate
  | ofStringTZ (raw : String) (tz : String) : TZDate
deriving DecidableEq

/-- Embedding of `parseISOToDateInTimezone` (src/unnamed/part_001,
lines 31-54).  The `typeof dateStr !== "string"` branch (console warning
plus production-mode coercion) is unreachable in the typed embedding, where
the argument is always a string. -/
def parseISOToDateInTimezone (dateStr : String) : TZDate :=
  if dateStr = "" then TZDate.now
  else TZDate.ofStringTZ dateStr (getISOTimezoneOffset dateStr)

/-- The `undefined` call path of `parseISOToDateInTimezone`: `!dateStr`
is true for `undefined`, so the zero-argument constructor is returned. -/
def parseISOToDateInTimezoneUndef : Option String → TZDate
  | none => TZDate.now
  | some s => parseISOToDateInTimezone s

/-- Modelled from the spec: the external zoned-datetime value type (§6(b))
"preserves the literal wall-clock fields", and §3 states the constructed
value's hour equals the hour "written in RawTimestamp verbatim"; the hour
accessor therefore reads the two digits directly after the `T` separator of
the raw literal.  The zero-argument "current moment" value has no
statically determined hour. -/
def TZDate.getHours : TZDate → Option Nat
  | TZDate.now => none
  | TZDate.ofStringTZ raw _ =>
    match raw.data.dropWhile (fun c => c ≠ 'T') with
    | _ :: d1 :: d2 :: _ =>
      if d1.isDigit ∧ d2.isDigit then
        some ((d1.toNat - '0'.toNat) * 10 + (d2.toNat - '0'.toNat))
      else none
    | _ => none

/-- Exception-aware rendering of `getISOTimezoneOffset`: every `return`
statement of the source maps to `Except.ok`; the source contains no
`throw` site and calls only non-throwing string primitives, so no branch
maps to `Except.error`. -/
def getISOTimezoneOffsetE (dateStr : String) : Except String String :=
  if dateStr = "" then .ok "UTC"
  else if 'T' ∉ dateStr.data then .ok "UTC"
  else if dateStr.data.getLast? = some 'Z' then .ok "UTC"
  else
    let positiveTzOffsetStartIndex := jsLastIndexOf '+' dateStr
    if positiveTzOffsetStartIndex > -1 then
      .ok (jsSliceFrom dateStr positiveTzOffsetStartIndex)
    else
      let negativeTzOffsetStartIndex := jsLastIndexOf '-' dateStr
      let lastColonCharacterIndex := jsLastIndexOf ':' dateStr
      if negativeTzOffsetStartIndex > -1 ∧ lastColonCharacterIndex > -1 ∧
          negativeTzOffsetStartIndex > lastColonCharacterIndex then
        .ok (jsSliceFrom dateStr negativeTzOffsetStartIndex)
      else .ok "UTC"

/-- Exception-aware rendering of `parseISOToDateInTimezone`: both `return`
statements map to `Except.ok`, and the offset extraction's result is
threaded through the monad. -/
def parseISOToDateInTimezoneE (dateStr : String) : Except String TZDate :=
  if dateStr = "" then .ok TZDate.now
  else do
    let off ← getISOTimezoneOffsetE dateStr
    .ok (TZDate.ofStringTZ dateStr off)

/-- A JavaScript value at the loosely-typed call boundary of the source:
a proper string, `undefined`, or a number — the number standing for a
truthy-capable non-string value that carries no string methods, like the
`moment()` object named in the source's own comment (line 40). -/
inductive JSValue where
  | str (s : String)
  | undef
  | num (n : Int)
deriving DecidableEq

/-- JavaScript falsiness (the `!dateStr` test): the empty string,
`undefined` and `0` are falsy. -/
def jsFalsy : JSValue → Bool
  | .str s => s = ""
  | .undef => true
  | .num n => n = 0

/-- JavaScript `String(v)`. -/
def jsToString : JSValue → String
  | .str s => s
  | .undef => "undefined"
  | .num n => toString n

/-- `getISOTimezoneOffset` at the untyped boundary: the `!dateStr` guard
(line 84) applies to any value; past it, a string input runs the string
algorithm, while a truthy non-string reaches `dateStr.includes("T")`
(line 89), and that member access on a value without string methods
throws a `TypeError`. -/
def getISOTimezoneOffsetJS (v : JSValue) : Except String String :=
  if jsFalsy v then .ok "UTC"
  else
    match v with
    | .str s => getISOTimezoneOffsetE s
    | _ => .error "TypeError: dateStr.includes is not a function"

/-- `parseISOToDateInTimezone` at the untyped boundary (lines 31-54): the
`!dateStr` guard, then the `typeof dateStr !== "string"` branch — a
console warning with no effect on the result, and the coercion
`dateStr = String(dateStr)` only when `process.env.NODE_ENV` is
`"production"` — then `new TZDate(dateStr, getISOTimezoneOffset(dateStr))`.
The argument `getISOTimezoneOffset(dateStr)` is evaluated before the
constructor, so a `TypeError` raised there propagates out; on every
non-error path the value reaching the constructor is a string, rendered
here by `jsToString`. -/
def parseISOToDateInTimezoneJS (production : Bool) (v : JSValue) :
    Except String TZDate :=
  if jsFalsy v then .ok TZDate.now
  else
    let v' :=
      match v with
      | .str s => JSValue.str s
      | w => if production then JSValue.str (jsToString w) else w
    do
      let off ← getISOTimezoneOffsetJS v'
      .ok (TZDate.ofStringTZ (jsToString v') off)

/-! ### Characterisation of `lastIdx?` -/

theorem lastIdx?_eq_none_iff {c : Char} {l : List Char} :
    lastIdx? c l = none ↔ c ∉ l := by
  induction l with
  | nil => simp [lastIdx?]
  | cons x xs ih =>
    simp only [lastIdx?]
    cases h : lastIdx? c xs with
    | some i => simp [List.mem_cons, ih.symm, h]
    | none =>
      rcases ih.mp h with hnot
      by_cases hx : x = c
      · simp [hx, List.mem_cons]
      · simp [hx, List.mem_cons, hnot, Ne.symm hx]

theorem lastIdx?_isSome_of_mem {c : Char} {l : List Char} (h : c ∈ l) :
    ∃ i, lastIdx? c l = some i := by
  cases hl : lastIdx? c l with
  | some i => exact ⟨i, rfl⟩
  | none => exact absurd h (lastIdx?_eq_none_iff.mp hl)

theorem lastIdx?_append_of_not_mem {c : Char} {ys : List Char}
    (hys : c ∈ ys → False) (xs : List Char) :
    lastIdx? c (xs ++ ys) = lastIdx? c xs := by
  induction xs with
  | nil =>
    simp only [List.nil_append, lastIdx?]
    exact lastIdx?_eq_none_iff.mpr hys
  | cons x xs ih =>
    simp only [List.cons_append, lastIdx?, List.append_eq, ih]

theorem lastIdx?_append_cons_self {c : Char} {ys : List Char}
    (hys : c ∉ ys) (xs : List Char) :
    lastIdx? c (xs ++ c :: ys) = some xs.length := by
  induction xs with
  | nil =>
    simp [lastIdx?, lastIdx?_eq_none_iff.mpr hys]
  | cons x xs ih =>
    simp only [List.cons_append, lastIdx?, List.append_eq, ih, List.length_cons]

theorem lastIdx?_lt_length {c : Char} {l : List Char} {i : Nat}
    (h : lastIdx? c l = some i) : i < l.length := by
  induction l generalizing i with
  | nil => simp [lastIdx?] at h
  | cons x xs ih =>
    simp only [lastIdx?] at h
    cases hx : lastIdx? c xs with
    | some j =>
      rw [hx] at h
      cases h
      exact Nat.succ_lt_succ (ih hx)
    | none =>
      rw [hx] at h
      by_cases hxc : x = c
      · simp [hxc] at h
        cases h
        exact Nat.succ_le_succ (Nat.zero_le _)
      · simp [hxc] at h

theorem lastIdx?_mem {c : Char} {l : List Char} {i : Nat}
    (h : lastIdx? c l = some i) : c ∈ l := by
  by_contra hc
  rw [lastIdx?_eq_none_iff.mpr hc] at h
  cases h

/-- Decomposition at the last occurrence: if `lastIdx? c l = some i` then
`l` splits as `l.take i ++ c :: suf` with no `c` in `suf`. -/
theorem lastIdx?_decomp {c : Char} {l : List Char} {i : Nat}
    (h : lastIdx? c l = some i) :
    ∃ suf, l = l.take i ++ c :: suf ∧ c ∉ suf := by
  induction l generalizing i with
  | nil => simp [lastIdx?] at h
  | cons x xs ih =>
    simp only [lastIdx?] at h
    cases hx : lastIdx? c xs with
    | some j =>
      rw [hx] at h
      cases h
      rcases ih hx with ⟨suf, hsuf, hnot⟩
      exact ⟨suf, by simpa [List.take] using congrArg (x :: ·) hsuf, hnot⟩
    | none =>
      rw [hx] at h
      by_cases hxc : x = c
      · simp only [if_pos hxc] at h
        cases h
        exact ⟨xs, by simp [hxc], lastIdx?_eq_none_iff.mp hx⟩
      · simp [hxc] at h

/-- Decomposition at the last occurrence, membership form. -/
theorem exists_decomp_of_mem {c : Char} {l : List Char} (h : c ∈ l) :
    ∃ pre suf, l = pre ++ c :: suf ∧ c ∉ suf := by
  rcases lastIdx?_isSome_of_mem h with ⟨i, hi⟩
  rcases lastIdx?_decomp hi with ⟨suf, hsuf, hnot⟩
  exact ⟨l.take i, suf, hsuf, hnot⟩

/-! ### Branch lemmas for `getISOTimezoneOffset` -/

theorem int_negSucc_zero : Int.negSucc 0 = -1 := rfl

theorem jsLastIndexOf_eq_some {c : Char} {s : String} {i : Nat}
    (h : lastIdx? c s.data = some i) : jsLastIndexOf c s = (i : Int) := by
  simp [jsLastIndexOf, h]

theorem jsLastIndexOf_eq_none {c : Char} {s : String}
    (h : lastIdx? c s.data = none) : jsLastIndexOf c s = -1 := by
  simp [jsLastIndexOf, h]

theorem jsSliceFrom_natCast (s : String) (i : Nat) :
    jsSliceFrom s (i : Int) = ⟨s.data.drop i⟩ := by
  simp [jsSliceFrom]

/-- The `-1`-sentinel `lastIndexOf` control flow of the source, re-expressed
over the `Option`-valued `lastIdx?`. -/
theorem getISOTimezoneOffset_eq_core (s : String) :
    getISOTimezoneOffset s =
      (if s = "" then "UTC"
      else if 'T' ∉ s.data then "UTC"
      else if s.data.getLast? = some 'Z' then "UTC"
      else
        match lastIdx? '+' s.data with
        | some i => String.mk (s.data.drop i)
        | none =>
          match lastIdx? '-' s.data, lastIdx? ':' s.data with
          | some m, some k =>
            if k < m then String.mk (s.data.drop m) else "UTC"
          | some _, none => "UTC"
          | none, _ => "UTC") := by
  unfold getISOTimezoneOffset
  by_cases h1 : s = ""
  · simp [h1]
  · by_cases h2 : 'T' ∉ s.data
    · simp [h1, h2]
    · by_cases h3 : s.data.getLast? = some 'Z'
      · simp [h1, h2, h3]
      · simp only [if_neg h1, if_neg h2, if_neg h3]
        cases hp : lastIdx? '+' s.data with
        | some i =>
          rw [jsLastIndexOf_eq_some hp]
          simp only [int_negSucc_zero]
          rw [if_pos (by omega : (i : Int) > -1), jsSliceFrom_natCast]
        | none =>
          rw [jsLastIndexOf_eq_none hp]
          simp only [int_negSucc_zero]
          rw [if_neg (lt_irrefl (-1 : Int))]
          cases hm : lastIdx? '-' s.data with
          | none =>
            rw [jsLastIndexOf_eq_none hm]
            exact if_neg (fun hc => absurd hc.1 (lt_irrefl (-1 : Int)))
          | some m =>
            rw [jsLastIndexOf_eq_some hm]
            cases hk : lastIdx? ':' s.data with
            | none =>
              rw [jsLastIndexOf_eq_none hk]
              simp only [int_negSucc_zero]
              exact if_neg (fun hc => absurd hc.2.1 (lt_irrefl (-1 : Int)))
            | some k =>
              rw [jsLastIndexOf_eq_some hk]
              simp only [int_negSucc_zero]
              by_cases hkm : k < m
              · rw [if_pos ⟨by omega, by omega, by exact_mod_cast hkm⟩,
                  jsSliceFrom_natCast]
                exact (if_pos hkm).symm
              · rw [if_neg (fun hc => hkm (by exact_mod_cast hc.2.2))]
                exact (if_neg hkm).symm

theorem getISOTimezoneOffset_plus {s : String} {i : Nat}
    (hne : s ≠ "") (hT : 'T' ∈ s.data) (hZ : s.data.getLast? ≠ some 'Z')
    (hp : lastIdx? '+' s.data = some i) :
    getISOTimezoneOffset s = ⟨s.data.drop i⟩ := by
  rw [getISOTimezoneOffset_eq_core, if_neg hne, if_neg (not_not_intro hT),
    if_neg hZ]
  simp only [hp]

theorem getISOTimezoneOffset_minus {s : String} {m k : Nat}
    (hne : s ≠ "") (hT : 'T' ∈ s.data) (hZ : s.data.getLast? ≠ some 'Z')
    (hp : lastIdx? '+' s.data = none)
    (hm : lastIdx? '-' s.data = some m)
    (hk : lastIdx? ':' s.data = some k)
    (hkm : k < m) :
    getISOTimezoneOffset s = ⟨s.data.drop m⟩ := by
  rw [getISOTimezoneOffset_eq_core, if_neg hne, if_neg (not_not_intro hT),
    if_neg hZ]
  simp only [hp, hm, hk, hkm, if_true]

theorem getISOTimezoneOffset_utc {s : String}
    (hp : lastIdx? '+' s.data = none)
    (hcond : ∀ m k, lastIdx? '-' s.data = some m →
      lastIdx? ':' s.data = some k → ¬ k < m) :
    getISOTimezoneOffset s = "UTC" := by
  rw [getISOTimezoneOffset_eq_core]
  by_cases h1 : s = ""
  · rw [if_pos h1]
  · rw [if_neg h1]
    by_cases h2 : 'T' ∉ s.data
    · rw [if_pos h2]
    · rw [if_neg h2]
      by_cases h3 : s.data.getLast? = some 'Z'
      · rw [if_pos h3]
      · rw [if_neg h3]
        simp only [hp]
        cases hm : lastIdx? '-' s.data with
        | none => rfl
        | some m =>
          cases hk : lastIdx? ':' s.data with
          | none => rfl
          | some k => exact if_neg (hcond m k hm hk)

/-- If `c` occurs in the right part of an append, the last occurrence in the
whole list is at or beyond the left part's length. -/
theorem lastIdx?_append_ge {c : Char} {xs ys : List Char} (h : c ∈ ys)
    {j : Nat} (hj : lastIdx? c (xs ++ ys) = some j) : xs.length ≤ j := by
  induction xs generalizing j with
  | nil => exact Nat.zero_le j
  | cons x xs ih =>
    rw [List.cons_append] at hj
    simp only [lastIdx?] at hj
    cases hx : lastIdx? c (xs ++ ys) with
    | none =>
      exact absurd (List.mem_append_right xs h) (lastIdx?_eq_none_iff.mp hx)
    | some j' =>
      rw [hx] at hj
      cases hj
      exact Nat.succ_le_succ (ih hx)

/-! ### Claim theorems -/

/-- C2: for every non-empty string that contains a `T`, does not end in `Z`,
and contains at least one `+`, `getISOTimezoneOffset` returns the substring
of the input from the position of the last occurrence of `+` to the end of
the string (the decomposition `pre ++ '+' :: suf` with no `+` in `suf`
identifies that position). -/
theorem C2_last_plus_slice (s : String)
    (hne : s ≠ "") (hT : 'T' ∈ s.data) (hZ : s.data.getLast? ≠ some 'Z')
    (hp : '+' ∈ s.data) :
    ∃ pre suf, s.data = pre ++ '+' :: suf ∧ '+' ∉ suf ∧
      getISOTimezoneOffset s = ⟨'+' :: suf⟩ := by
  rcases exists_decomp_of_mem hp with ⟨pre, suf, hdecomp, hnot⟩
  refine ⟨pre, suf, hdecomp, hnot, ?_⟩
  have hlast : lastIdx? '+' s.data = some pre.length := by
    rw [hdecomp]; exact lastIdx?_append_cons_self hnot pre
  rw [getISOTimezoneOffset_plus hne hT hZ hlast, hdecomp,
    List.drop_left' rfl]

/-- Witness for C2 at `"2020-10-14T14:03:00+0200"`. -/
theorem C2_last_plus_slice_witness :
    ∃ pre suf, ("2020-10-14T14:03:00+0200" : String).data = pre ++ '+' :: suf ∧
      '+' ∉ suf ∧ getISOTimezoneOffset "2020-10-14T14:03:00+0200" = ⟨'+' :: suf⟩ :=
  C2_last_plus_slice "2020-10-14T14:03:00+0200" (by decide) (by decide)
    (by decide) (by decide)

/-- C3: for every non-empty string that contains a `T`, does not end in `Z`,
and contains no `+`: if a `-` exists and the last `-` occurs strictly after
the last `:` (both characters present, no `-` and no `:` after the last `-`,
a `:` before it), the result is the substring from that last `-` to the end;
otherwise the result is `"UTC"`. -/
theorem C3_minus_after_colon (s : String)
    (hne : s ≠ "") (hT : 'T' ∈ s.data) (hZ : s.data.getLast? ≠ some 'Z')
    (hp : '+' ∉ s.data) :
    ((∃ pre suf, s.data = pre ++ '-' :: suf ∧ '-' ∉ suf ∧ ':' ∉ suf ∧
        ':' ∈ pre) →
      ∃ pre suf, s.data = pre ++ '-' :: suf ∧ '-' ∉ suf ∧
        getISOTimezoneOffset s = ⟨'-' :: suf⟩) ∧
    ((¬ ∃ pre suf, s.data = pre ++ '-' :: suf ∧ '-' ∉ suf ∧ ':' ∉ suf ∧
        ':' ∈ pre) →
      getISOTimezoneOffset s = "UTC") := by
  constructor
  · rintro ⟨pre, suf, hdecomp, hm, hc, hcp⟩
    refine ⟨pre, suf, hdecomp, hm, ?_⟩
    have hplast : lastIdx? '+' s.data = none := lastIdx?_eq_none_iff.mpr hp
    have hmlast : lastIdx? '-' s.data = some pre.length := by
      rw [hdecomp]; exact lastIdx?_append_cons_self hm pre
    have hclast : lastIdx? ':' s.data = lastIdx? ':' pre := by
      rw [hdecomp]
      exact lastIdx?_append_of_not_mem
        (fun hmem => by
          rcases List.mem_cons.mp hmem with h | h
          · exact absurd h (by decide)
          · exact hc h) pre
    rcases lastIdx?_isSome_of_mem hcp with ⟨k, hk⟩
    have hklt : k < pre.length := lastIdx?_lt_length hk
    rw [getISOTimezoneOffset_minus hne hT hZ hplast hmlast
      (hclast.trans hk) hklt, hdecomp, List.drop_left' rfl]
  · intro hnex
    apply getISOTimezoneOffset_utc (lastIdx?_eq_none_iff.mpr hp)
    intro m k hm hk hkm
    apply hnex
    rcases lastIdx?_decomp hm with ⟨suf, hdecomp, hnot⟩
    have hlen : (s.data.take m).length = m :=
      List.length_take_of_le (Nat.le_of_lt (lastIdx?_lt_length hm))
    have hcsuf : ':' ∉ suf := by
      intro hcs
      have : (s.data.take m).length ≤ k :=
        lastIdx?_append_ge (List.mem_cons_of_mem _ hcs) (hdecomp ▸ hk)
      omega
    refine ⟨s.data.take m, suf, hdecomp, hnot, hcsuf, ?_⟩
    have hcmem : ':' ∈ s.data := lastIdx?_mem hk
    rw [hdecomp] at hcmem
    rcases List.mem_append.mp hcmem with h | h
    · exact h
    · rcases List.mem_cons.mp h with h | h
      · exact absurd h (by decide)
      · exact absurd h hcsuf

/-- Witness for C3 at `"2020-10-14T14:03:00-0200"`. -/
theorem C3_minus_after_colon_witness :
    ((∃ pre suf, ("2020-10-14T14:03:00-0200" : String).data =
        pre ++ '-' :: suf ∧ '-' ∉ suf ∧ ':' ∉ suf ∧ ':' ∈ pre) →
      ∃ pre suf, ("2020-10-14T14:03:00-0200" : String).data =
        pre ++ '-' :: suf ∧ '-' ∉ suf ∧
        getISOTimezoneOffset "2020-10-14T14:03:00-0200" = ⟨'-' :: suf⟩) ∧
    ((¬ ∃ pre suf, ("2020-10-14T14:03:00-0200" : String).data =
        pre ++ '-' :: suf ∧ '-' ∉ suf ∧ ':' ∉ suf ∧ ':' ∈ pre) →
      getISOTimezoneOffset "2020-10-14T14:03:00-0200" = "UTC") :=
  C3_minus_after_colon "2020-10-14T14:03:00-0200" (by decide) (by decide)
    (by decide) (by decide)

/-- C4: `getISOTimezoneOffset` returns `"UTC"` on the empty string, on an
`undefined` input, on the date-only string, on the offset-free string
(whose date-portion `-` characters are not taken for an offset sign), and
on the `Z`-terminated string. -/
theorem C4_utc_defaults :
    getISOTimezoneOffset "" = "UTC" ∧
    getISOTimezoneOffsetUndef none = "UTC" ∧
    getISOTimezoneOffset "2020-10-14" = "UTC" ∧
    getISOTimezoneOffset "2020-10-14T14:03:00" = "UTC" ∧
    getISOTimezoneOffset "2020-10-14T14:03:00Z" = "UTC" :=
  ⟨by decide, rfl, by decide, by decide, by decide⟩

/-- C6: for every non-empty input, `parseISOToDateInTimezone` returns
exactly the zoned value constructed from the unmodified input string and
the offset extracted from that same string. -/
theorem C6_parse_structure (s : String) (h : s ≠ "") :
    parseISOToDateInTimezone s =
      TZDate.ofStringTZ s (getISOTimezoneOffset s) := by
  unfold parseISOToDateInTimezone
  rw [if_neg h]

/-- Witness for C6 at `"2020-10-14T14:03:00+0200"`. -/
theorem C6_parse_structure_witness :
    parseISOToDateInTimezone "2020-10-14T14:03:00+0200" =
      TZDate.ofStringTZ "2020-10-14T14:03:00+0200"
        (getISOTimezoneOffset "2020-10-14T14:03:00+0200") :=
  C6_parse_structure "2020-10-14T14:03:00+0200" (by decide)

/-- C7: for empty or `undefined` input, `parseISOToDateInTimezone` does not
fail and returns the zero-argument "current moment" constructor of the
zoned value type. -/
theorem C7_empty_now :
    parseISOToDateInTimezoneUndef none = TZDate.now ∧
    parseISOToDateInTimezone "" = TZDate.now :=
  ⟨rfl, by decide⟩

/-- C10: for every string containing a `T`, not ending in `Z`, with no `+`
and no `:` at all, `getISOTimezoneOffset` returns `"UTC"` even when the
string contains a `-`: the negative-offset branch requires a colon. -/
theorem C10_no_colon_utc (s : String)
    (hT : 'T' ∈ s.data) (hZ : s.data.getLast? ≠ some 'Z')
    (hp : '+' ∉ s.data) (hc : ':' ∉ s.data) :
    getISOTimezoneOffset s = "UTC" := by
  apply getISOTimezoneOffset_utc (lastIdx?_eq_none_iff.mpr hp)
  intro m k _ hk _
  exact absurd (lastIdx?_mem hk) hc

/-- Witness for C10 at the basic-format string `"20201014T140300-0200"`,
which contains a `-` but no colon and yields `"UTC"`. -/
theorem C10_no_colon_utc_witness :
    getISOTimezoneOffset "20201014T140300-0200" = "UTC" :=
  C10_no_colon_utc "20201014T140300-0200" (by decide) (by decide)
    (by decide) (by decide)

/-- C5 counterexample: on the garbage input `"T+"` the result is `"+"`,
which is neither the literal `"UTC"` nor a signed 5-character `(+|-)HHMM`
string, refuting the claimed two-shape invariant for arbitrary inputs. -/
theorem C5_shape_counterexample :
    getISOTimezoneOffset "T+" = "+" ∧
    getISOTimezoneOffset "T+" ≠ "UTC" ∧
    (getISOTimezoneOffset "T+").length ≠ 5 := by decide

/-- C5 amended: for every input string the result is either the literal
`"UTC"` or a non-empty suffix of the input beginning with the sign
character `+` or `-`; it is never empty. -/
theorem C5_amended_shape (s : String) :
    (getISOTimezoneOffset s = "UTC" ∨
      ∃ pre c suf, s.data = pre ++ c :: suf ∧ (c = '+' ∨ c = '-') ∧
        getISOTimezoneOffset s = ⟨c :: suf⟩) ∧
    getISOTimezoneOffset s ≠ "" := by
  have hmain : getISOTimezoneOffset s = "UTC" ∨
      ∃ pre c suf, s.data = pre ++ c :: suf ∧ (c = '+' ∨ c = '-') ∧
        getISOTimezoneOffset s = ⟨c :: suf⟩ := by
    by_cases h1 : s = ""
    · left; rw [getISOTimezoneOffset_eq_core, if_pos h1]
    · by_cases h2 : 'T' ∉ s.data
      · left; rw [getISOTimezoneOffset_eq_core, if_neg h1, if_pos h2]
      · by_cases h3 : s.data.getLast? = some 'Z'
        · left
          rw [getISOTimezoneOffset_eq_core, if_neg h1, if_neg h2, if_pos h3]
        · cases hp : lastIdx? '+' s.data with
          | some i =>
            right
            rcases exists_decomp_of_mem (lastIdx?_mem hp)
              with ⟨pre, suf, hdecomp, hnot⟩
            refine ⟨pre, '+', suf, hdecomp, Or.inl rfl, ?_⟩
            have hlast : lastIdx? '+' s.data = some pre.length := by
              rw [hdecomp]; exact lastIdx?_append_cons_self hnot pre
            rw [getISOTimezoneOffset_plus h1 (not_not.mp h2) h3 hlast,
              hdecomp, List.drop_left' rfl]
          | none =>
            cases hm : lastIdx? '-' s.data with
            | none =>
              left
              exact getISOTimezoneOffset_utc hp
                (fun m k hm' _ _ => by rw [hm] at hm'; cases hm')
            | some m =>
              cases hk : lastIdx? ':' s.data with
              | none =>
                left
                exact getISOTimezoneOffset_utc hp
                  (fun m' k hm' hk' _ => by rw [hk] at hk'; cases hk')
              | some k =>
                by_cases hkm : k < m
                · right
                  have hmmem : '-' ∈ s.data := lastIdx?_mem hm
                  rcases exists_decomp_of_mem hmmem
                    with ⟨pre, suf, hdecomp, hnot⟩
                  refine ⟨pre, '-', suf, hdecomp, Or.inr rfl, ?_⟩
                  have hmlast : lastIdx? '-' s.data = some pre.length := by
                    rw [hdecomp]; exact lastIdx?_append_cons_self hnot pre
                  have hpm : pre.length = m := by
                    rw [hm] at hmlast; cases hmlast; rfl
                  rw [getISOTimezoneOffset_minus h1 (not_not.mp h2) h3 hp
                    hm hk hkm, hdecomp, ← hpm, List.drop_left' rfl]
                · left
                  exact getISOTimezoneOffset_utc hp
                    (fun m' k' hm' hk' hkm' => by
                      rw [hm] at hm'; rw [hk] at hk'
                      cases hm'; cases hk'; exact hkm hkm')
  refine ⟨hmain, ?_⟩
  rcases hmain with h | ⟨pre, c, suf, _, _, h⟩
  · rw [h]; decide
  · rw [h]
    intro hx
    have hdata := congrArg String.data hx
    simp at hdata

/-- On string inputs the exception-aware rendering always succeeds with
the value of the pure embedding: every `return` of the string algorithm is
an `ok`. -/
theorem getISOTimezoneOffsetE_ok (s : String) :
    getISOTimezoneOffsetE s = Except.ok (getISOTimezoneOffset s) := by
  unfold getISOTimezoneOffsetE getISOTimezoneOffset
  dsimp only
  repeat' split
  all_goals rfl

theorem getISOTimezoneOffsetJS_str_ok (s : String) :
    ∃ r, getISOTimezoneOffsetJS (JSValue.str s) = Except.ok r := by
  unfold getISOTimezoneOffsetJS
  by_cases h : jsFalsy (JSValue.str s) = true
  · rw [if_pos h]
    exact ⟨"UTC", rfl⟩
  · rw [if_neg h]
    exact ⟨_, getISOTimezoneOffsetE_ok s⟩

/-- C8 counterexample: a truthy non-string input (the number 42) outside
production mode reaches `dateStr.includes("T")` with no such method and
throws a `TypeError` in both functions, so the universal no-throw claim
fails on the non-string inputs it names. -/
theorem C8_throw_counterexample :
    getISOTimezoneOffsetJS (JSValue.num 42) =
      Except.error "TypeError: dateStr.includes is not a function" ∧
    parseISOToDateInTimezoneJS false (JSValue.num 42) =
      Except.error "TypeError: dateStr.includes is not a function" :=
  ⟨rfl, rfl⟩

/-- C8 amended: no exception escapes for every string input (malformed or
empty included) and every falsy input, and `parseISOToDateInTimezone`
additionally never throws in production mode, where a non-string is first
coerced to its string form; only a truthy non-string outside production
mode throws. -/
theorem C8_amended_no_throw (p : Bool) (v : JSValue)
    (h : (∃ s, v = JSValue.str s) ∨ jsFalsy v = true ∨ p = true) :
    (∃ d, parseISOToDateInTimezoneJS p v = Except.ok d) ∧
    (((∃ s, v = JSValue.str s) ∨ jsFalsy v = true) →
      ∃ r, getISOTimezoneOffsetJS v = Except.ok r) := by
  have hJSok : ∀ w : JSValue,
      ((∃ s, w = JSValue.str s) ∨ jsFalsy w = true) →
      ∃ r, getISOTimezoneOffsetJS w = Except.ok r := by
    intro w hw
    rcases hw with ⟨s, rfl⟩ | hf
    · exact getISOTimezoneOffsetJS_str_ok s
    · exact ⟨"UTC", by unfold getISOTimezoneOffsetJS; rw [if_pos hf]⟩
  refine ⟨?_, hJSok v⟩
  unfold parseISOToDateInTimezoneJS
  by_cases hf : jsFalsy v = true
  · rw [if_pos hf]
    exact ⟨TZDate.now, rfl⟩
  · rw [if_neg hf]
    rcases h with ⟨s, rfl⟩ | hf' | hp
    · dsimp only
      rcases getISOTimezoneOffsetJS_str_ok s with ⟨r, hr⟩
      exact ⟨_, by rw [hr]; rfl⟩
    · exact absurd hf' hf
    · subst hp
      cases v with
      | str s =>
        dsimp only
        rcases getISOTimezoneOffsetJS_str_ok s with ⟨r, hr⟩
        exact ⟨_, by rw [hr]; rfl⟩
      | undef => exact absurd rfl hf
      | num n =>
        dsimp only
        rw [if_pos rfl]
        rcases getISOTimezoneOffsetJS_str_ok (jsToString (JSValue.num n))
          with ⟨r, hr⟩
        exact ⟨_, by rw [hr]; rfl⟩

/-- Witness for the amended C8 at a string input outside production
mode. -/
theorem C8_amended_no_throw_witness :
    (∃ d, parseISOToDateInTimezoneJS false
      (JSValue.str "2020-10-14T14:03:00+0200") = Except.ok d) ∧
    (((∃ s, JSValue.str "2020-10-14T14:03:00+0200" = JSValue.str s) ∨
        jsFalsy (JSValue.str "2020-10-14T14:03:00+0200") = true) →
      ∃ r, getISOTimezoneOffsetJS
        (JSValue.str "2020-10-14T14:03:00+0200") = Except.ok r) :=
  C8_amended_no_throw false (JSValue.str "2020-10-14T14:03:00+0200")
    (Or.inl ⟨_, rfl⟩)

/-- C9: the hour field of the zoned value parsed from
`"2020-10-14T14:03:00+0200"` equals 14 — the wall-clock time written in the
input is preserved, not normalized away. -/
theorem C9_hour_preserved :
    TZDate.getHours (parseISOToDateInTimezone "2020-10-14T14:03:00+0200") =
      some 14 := by decide

/-! ### Valid ISO-8601 timestamps with an explicit numeric offset
(for claim C1, which quantifies over them) -/

/-- All characters are decimal digits. -/
def isDigitList (l : List Char) : Bool := l.all Char.isDigit

/-- Valid ISO-8601 calendar date: extended `YYYY-MM-DD` or basic
`YYYYMMDD`. -/
def isISODate (l : List Char) : Bool :=
  match l with
  | [y1, y2, y3, y4, '-', m1, m2, '-', d1, d2] =>
    isDigitList [y1, y2, y3, y4, m1, m2, d1, d2]
  | [y1, y2, y3, y4, m1, m2, d1, d2] =>
    isDigitList [y1, y2, y3, y4, m1, m2, d1, d2]
  | _ => false

/-- Valid ISO-8601 time of day: extended `hh:mm:ss` or basic `hhmmss`. -/
def isISOTime (l : List Char) : Bool :=
  match l with
  | [h1, h2, ':', m1, m2, ':', s1, s2] =>
    isDigitList [h1, h2, m1, m2, s1, s2]
  | [h1, h2, m1, m2, s1, s2] => isDigitList [h1, h2, m1, m2, s1, s2]
  | _ => false

/-- Extended (colon-separated) ISO-8601 time of day `hh:mm:ss`. -/
def isISOTimeExtended (l : List Char) : Bool :=
  match l with
  | [h1, h2, ':', m1, m2, ':', s1, s2] =>
    isDigitList [h1, h2, m1, m2, s1, s2]
  | _ => false

/-- Numeric ISO-8601 offset body following the sign: `HHMM` or `HH:MM`. -/
def isISOOffsetBody (l : List Char) : Bool :=
  match l with
  | [h1, h2, m1, m2] => isDigitList [h1, h2, m1, m2]
  | [h1, h2, ':', m1, m2] => isDigitList [h1, h2, m1, m2]
  | _ => false

/-- Basic four-digit offset body `HHMM` (no colon). -/
def isOffsetHHMM (l : List Char) : Bool :=
  match l with
  | [h1, h2, m1, m2] => isDigitList [h1, h2, m1, m2]
  | _ => false

/-- A valid ISO-8601 timestamp carrying an explicit numeric offset:
a date, the `T` separator, a time of day, then a sign and an offset body.
The trailing signed offset substring of such an input is `sgn :: off`. -/
def ValidISOWithNumericOffset (s : String) : Prop :=
  ∃ d t off sgn, s.data = d ++ 'T' :: (t ++ sgn :: off) ∧
    (sgn = '+' ∨ sgn = '-') ∧
    isISODate d = true ∧ isISOTime t = true ∧ isISOOffsetBody off = true

theorem isOffsetHHMM_all_digit {l : List Char} (h : isOffsetHHMM l = true) :
    ∀ c ∈ l, c.isDigit = true := by
  unfold isOffsetHHMM at h
  split at h
  · simp only [isDigitList, List.all_cons, List.all_nil, Bool.and_true,
      Bool.and_eq_true] at h
    intro c hc
    fin_cases hc <;> simp_all
  · cases h

theorem isISOOffsetBody_chars {l : List Char} (h : isISOOffsetBody l = true) :
    ∀ c ∈ l, c.isDigit = true ∨ c = ':' := by
  unfold isISOOffsetBody at h
  split at h <;>
    first
    | cases h
    | · simp only [isDigitList, List.all_cons, List.all_nil, Bool.and_true,
          Bool.and_eq_true] at h
        intro c hc
        fin_cases hc <;> simp_all

theorem isISODate_chars {l : List Char} (h : isISODate l = true) :
    ∀ c ∈ l, c.isDigit = true ∨ c = '-' := by
  unfold isISODate at h
  split at h <;>
    first
    | cases h
    | · simp only [isDigitList, List.all_cons, List.all_nil, Bool.and_true,
          Bool.and_eq_true] at h
        intro c hc
        fin_cases hc <;> simp_all

theorem isISOTime_chars {l : List Char} (h : isISOTime l = true) :
    ∀ c ∈ l, c.isDigit = true ∨ c = ':' := by
  unfold isISOTime at h
  split at h <;>
    first
    | cases h
    | · simp only [isDigitList, List.all_cons, List.all_nil, Bool.and_true,
          Bool.and_eq_true] at h
        intro c hc
        fin_cases hc <;> simp_all

theorem isISOOffsetBody_last {l : List Char} (h : isISOOffsetBody l = true) :
    ∃ c, l.getLast? = some c ∧ c.isDigit = true := by
  unfold isISOOffsetBody at h
  split at h <;>
    first
    | cases h
    | · simp only [isDigitList, List.all_cons, List.all_nil, Bool.and_true,
          Bool.and_eq_true] at h
        exact ⟨_, rfl, by simp_all⟩

theorem isISOTimeExtended_colon {l : List Char}
    (h : isISOTimeExtended l = true) : ':' ∈ l := by
  unfold isISOTimeExtended at h
  split at h
  · simp
  · cases h

theorem not_mem_of_chars_digit_or {l : List Char} {x o : Char}
    (hchar : ∀ c ∈ l, c.isDigit = true ∨ c = o)
    (hx1 : x.isDigit = false) (hx2 : x ≠ o) : x ∉ l := by
  intro hm
  rcases hchar x hm with h | h
  · rw [hx1] at h; cases h
  · exact hx2 h

/-- C1 counterexample: `"2020-10-14T14:03:00-02:00"` is a valid ISO-8601
timestamp whose explicit numeric offset (the trailing signed substring) is
`"-02:00"`, yet `getISOTimezoneOffset` returns `"UTC"`: the last `-` (the
offset sign) is not after the last `:` (inside the offset body). -/
theorem C1_trailing_offset_counterexample :
    ValidISOWithNumericOffset "2020-10-14T14:03:00-02:00" ∧
    getISOTimezoneOffset "2020-10-14T14:03:00-02:00" = "UTC" ∧
    ("UTC" : String) ≠ ⟨'-' :: "02:00".data⟩ := by
  refine ⟨⟨"2020-10-14".data, "14:03:00".data, "02:00".data, '-',
    by decide, Or.inr rfl, by decide, by decide, by decide⟩,
    by decide, by decide⟩

/-- C1 amended: for every valid ISO-8601 timestamp carrying an explicit
numeric offset, `getISOTimezoneOffset` returns exactly the trailing signed
offset substring, provided that when the sign is `-` the time of day is in
extended (colon-separated) form and the offset body is the colon-free
4-digit `HHMM` form (the two situations the counterexamples exclude). -/
theorem C1_amended_trailing_offset (s : String) (d t off : List Char)
    (sgn : Char)
    (hdata : s.data = d ++ 'T' :: (t ++ sgn :: off))
    (hsgn : sgn = '+' ∨ sgn = '-')
    (hd : isISODate d = true) (ht : isISOTime t = true)
    (hoff : isISOOffsetBody off = true)
    (hneg : sgn = '-' → isISOTimeExtended t = true ∧ isOffsetHHMM off = true) :
    getISOTimezoneOffset s = ⟨sgn :: off⟩ := by
  have hTmem : 'T' ∈ s.data := by
    rw [hdata]; exact List.mem_append_right d (List.mem_cons_self _ _)
  have hne : s ≠ "" := by
    intro h0
    rw [h0] at hdata
    have hnil : ([] : List Char) = d ++ 'T' :: (t ++ sgn :: off) := hdata
    simp at hnil
  rcases isISOOffsetBody_last hoff with ⟨cl, hcl, hcldig⟩
  have hoffne : off ≠ [] := by
    intro h0; rw [h0] at hcl; cases hcl
  have hlast : s.data.getLast? = some cl := by
    rw [hdata, List.getLast?_append_cons,
      show ('T' :: (t ++ sgn :: off)) = ('T' :: t) ++ sgn :: off by simp,
      List.getLast?_append_cons,
      show (sgn :: off) = [sgn] ++ off by rfl,
      List.getLast?_append_of_ne_nil _ hoffne]
    exact hcl
  have hZguard : s.data.getLast? ≠ some 'Z' := by
    rw [hlast]
    intro heq
    cases heq
    exact absurd hcldig (by decide)
  rcases hsgn with rfl | rfl
  · -- positive sign: slice from the last "+"
    have hplus_off : '+' ∉ off :=
      not_mem_of_chars_digit_or (isISOOffsetBody_chars hoff)
        (by decide) (by decide)
    have hplast : lastIdx? '+' s.data = some (d ++ 'T' :: t).length := by
      rw [hdata,
        show d ++ 'T' :: (t ++ '+' :: off) = (d ++ 'T' :: t) ++ '+' :: off
          by simp]
      exact lastIdx?_append_cons_self hplus_off _
    rw [getISOTimezoneOffset_plus hne hTmem hZguard hplast, hdata,
      show d ++ 'T' :: (t ++ '+' :: off) = (d ++ 'T' :: t) ++ '+' :: off
        by simp,
      List.drop_left' rfl]
  · -- negative sign: extended time and HHMM offset body
    obtain ⟨htext, hoffh⟩ := hneg rfl
    have hplus_t : '+' ∉ t :=
      not_mem_of_chars_digit_or (isISOTime_chars ht) (by decide) (by decide)
    have hplus_d : '+' ∉ d :=
      not_mem_of_chars_digit_or (isISODate_chars hd) (by decide) (by decide)
    have hplus_off : '+' ∉ off :=
      not_mem_of_chars_digit_or (isISOOffsetBody_chars hoff)
        (by decide) (by decide)
    have hoff_digits := isOffsetHHMM_all_digit hoffh
    have hminus_off : '-' ∉ off :=
      fun hm => absurd (hoff_digits _ hm) (by decide)
    have hcolon_off : ':' ∉ off :=
      fun hm => absurd (hoff_digits _ hm) (by decide)
    have hplast : lastIdx? '+' s.data = none := by
      apply lastIdx?_eq_none_iff.mpr
      rw [hdata]
      intro hm
      rcases List.mem_append.mp hm with h | h
      · exact hplus_d h
      · rcases List.mem_cons.mp h with h | h
        · exact absurd h (by decide)
        · rcases List.mem_append.mp h with h | h
          · exact hplus_t h
          · rcases List.mem_cons.mp h with h | h
            · exact absurd h (by decide)
            · exact hplus_off h
    have hmlast : lastIdx? '-' s.data = some (d ++ 'T' :: t).length := by
      rw [hdata,
        show d ++ 'T' :: (t ++ '-' :: off) = (d ++ 'T' :: t) ++ '-' :: off
          by simp]
      exact lastIdx?_append_cons_self hminus_off _
    have hcolT : ':' ∈ d ++ 'T' :: t :=
      List.mem_append_right d
        (List.mem_cons_of_mem _ (isISOTimeExtended_colon htext))
    have hclast : lastIdx? ':' s.data = lastIdx? ':' (d ++ 'T' :: t) := by
      rw [hdata,
        show d ++ 'T' :: (t ++ '-' :: off) = (d ++ 'T' :: t) ++ '-' :: off
          by simp]
      exact lastIdx?_append_of_not_mem
        (fun hm => by
          rcases List.mem_cons.mp hm with h | h
          · exact absurd h (by decide)
          · exact hcolon_off h) _
    rcases lastIdx?_isSome_of_mem hcolT with ⟨k, hk⟩
    rw [getISOTimezoneOffset_minus hne hTmem hZguard hplast hmlast
      (hclast.trans hk) (lastIdx?_lt_length hk), hdata,
      show d ++ 'T' :: (t ++ '-' :: off) = (d ++ 'T' :: t) ++ '-' :: off
        by simp,
      List.drop_left' rfl]

/-- Witness for the amended C1 at `"2020-10-14T14:03:00+0200"`. -/
theorem C1_amended_trailing_offset_witness :
    getISOTimezoneOffset "2020-10-14T14:03:00+0200" =
      ⟨'+' :: "0200".data⟩ :=
  C1_amended_trailing_offset "2020-10-14T14:03:00+0200" "2020-10-14".data
    "14:03:00".data "0200".data '+' (by decide) (Or.inl rfl) (by decide)
    (by decide) (by decide) (fun h => absurd h (by decide))

/-- The embedding reproduces the source's own unit-test table
(src/unnamed/part_001, lines 127-141). -/
theorem getISOTimezoneOffset_source_tests :
    getISOTimezoneOffset "2020-10-14T14:03:00+0200" = "+0200" ∧
    getISOTimezoneOffset "2020-10-14T14:03:00-0200" = "-0200" ∧
    getISOTimezoneOffset "2020-10-14T14:03:00" = "UTC" ∧
    getISOTimezoneOffset "2020-10-14T14:03:00Z" = "UTC" ∧
    getISOTimezoneOffset "2020-10-14" = "UTC" ∧
    getISOTimezoneOffset "" = "UTC" ∧
    getISOTimezoneOffsetUndef none = "UTC" := by
  refine ⟨by decide, by decide, by decide, by decide, by decide, by decide,
    rfl⟩

end RealWorldTs
